import Mathlib

/-!
Round-robin load balancer: liveness cache and dispatch.

A shallow embedding of `backend.go` and `load_balancer.go` (the copy under
`internal/loadbalancer` has the same `getNextBackend`, `AddBackend` and
`ServeHTTP` bodies).

Modelling conventions
* Clock readings and durations are integers counting nanoseconds
  (`time.Time` on the monotonic clock, `time.Duration`); `time.Since t` is the
  difference `now - t`.
* The outside world is passed in explicitly: every clock reading and the
  outcome of every HEAD request is an argument of the function that reads it.
* `roundRobinCount` is a `uint64`: a natural number reduced modulo `2 ^ 64`
  after the atomic add.
* A `*Backend` held by the pool is identified with its position in
  `backends`; the pool is the list of the records the pointers refer to.
* Every function is one sequential execution, so locks do not change its
  result; what a goroutine does to locks and to the network is listed, in
  program order, by the functions whose names end in `Acts`.
-/

namespace Balancer

/-- Outcome of `client.Head`: `err != nil` (transport error or timeout), or a
completed response with its status code. -/
inductive ProbeResult where
  | failed : ProbeResult
  | status (code : Nat) : ProbeResult
deriving DecidableEq, Repr

/-- The constant `http.StatusOK`. -/
def StatusOK : Nat := 200

/-- The constant `http.StatusServiceUnavailable`. -/
def StatusServiceUnavailable : Nat := 503

/-- The constant `time.Second`, in nanoseconds. -/
def Second : Int := 1000000000

/-- The fields of `Backend` that carry state. `proxy` is a function of `URL`
and `mux` is a lock; neither is represented. -/
structure Backend where
  URL : String
  Alive : Bool
  lastChecked : Int
  checkTimeout : Int
deriving DecidableEq, Repr

/-- What one call of `IsAlive` reads from the outside world: the clock seen by
`time.Since`, the outcome of the HEAD request should one be issued, and the
clock seen by `time.Now` inside `SetAlive` when the outcome is committed. -/
structure Obs where
  now : Int
  resp : ProbeResult
  commit : Int
deriving DecidableEq, Repr

/-- Result of `CheckHealth` and of `IsAlive`: the returned boolean, the
backend record afterwards, and the number of HEAD requests issued. -/
structure HealthResult where
  alive : Bool
  backend : Backend
  probes : Nat
deriving DecidableEq, Repr

/-- An HTTP response as far as the balancer decides it. -/
structure Response where
  status : Nat
  body : String
deriving DecidableEq, Repr

/-- What the reverse proxy reports for one forwarded request: the origin's
response, or an error (which runs `proxy.ErrorHandler`). -/
inductive ForwardOutcome where
  | delivered (resp : Response) : ForwardOutcome
  | failed : ForwardOutcome
deriving DecidableEq, Repr

/-- Observable actions of the balancer on pool members. -/
inductive Event where
  | probe (idx : Nat) : Event
  | forward (idx : Nat) : Event
deriving DecidableEq, Repr

/-- The state of `LoadBalancer` (the lock `mu` is not represented). -/
structure LoadBalancer where
  port : String
  roundRobinCount : Nat
  backends : List Backend
deriving DecidableEq, Repr

/-- Result of the probing loop of `getNextBackend`. -/
structure Sweep where
  pick : Option Nat
  backends : List Backend
  trace : List Event
deriving DecidableEq, Repr

/-- Result of `getNextBackend`: the position of the returned backend (`none`
for `nil`), the balancer afterwards and the probes issued on the way. -/
structure Selection where
  pick : Option Nat
  lb : LoadBalancer
  trace : List Event
deriving DecidableEq, Repr

/-- Result of `ServeHTTP`. -/
structure Served where
  lb : LoadBalancer
  response : Response
  trace : List Event
deriving DecidableEq, Repr

/-- Result of a sequence of calls of `getNextBackend`. -/
structure Run where
  picks : List (Option Nat)
  lb : LoadBalancer
  trace : List Event
deriving DecidableEq, Repr

/-- `Backend.SetAlive`: writes `Alive` and `lastChecked` together. -/
def SetAlive (b : Backend) (alive : Bool) (now : Int) : Backend :=
  { b with Alive := alive, lastChecked := now }

/-- `Backend.SetTimeout`. -/
def SetTimeout (b : Backend) (d : Int) : Backend :=
  { b with checkTimeout := d }

/-- `Backend.CheckHealth`: one HEAD request with outcome `resp`; `now` is the
clock read by `SetAlive`. -/
def CheckHealth (b : Backend) (resp : ProbeResult) (now : Int) : HealthResult :=
  match resp with
  | ProbeResult.failed => ⟨false, SetAlive b false now, 1⟩
  | ProbeResult.status code =>
    let alive := decide (code = StatusOK)
    ⟨alive, SetAlive b alive now, 1⟩

/-- `Backend.IsAlive`: a fresh check when `time.Since(lastChecked)` exceeds
`checkTimeout`, the cached flag otherwise. -/
def IsAlive (b : Backend) (o : Obs) : HealthResult :=
  if o.now - b.lastChecked > b.checkTimeout then
    CheckHealth b o.resp o.commit
  else
    ⟨b.Alive, b, 0⟩

/-- `Backend.Serve` together with the `proxy.ErrorHandler` installed by
`NewBackend`; `now` is the clock read by `SetAlive` in the handler. -/
def Serve (b : Backend) (out : ForwardOutcome) (now : Int) : Backend × Response :=
  match out with
  | ForwardOutcome.delivered r => (b, r)
  | ForwardOutcome.failed =>
    (SetAlive b false now, ⟨StatusServiceUnavailable, "Backend is not available"⟩)

/-- `NewBackend`; `parse` stands for `url.Parse` and `now` for `time.Now()`. -/
def NewBackend (parse : String → Except String String) (urlStr : String) (now : Int) :
    Except String Backend :=
  match parse urlStr with
  | Except.error e => Except.error e
  | Except.ok u =>
    Except.ok { URL := u, Alive := true, checkTimeout := 2 * Second, lastChecked := now }

/-- `NewLoadBalancer`. -/
def NewLoadBalancer (port : String) : LoadBalancer :=
  { port := port, roundRobinCount := 0, backends := [] }

/-- `LoadBalancer.AddBackend`: the returned error (`none` for `nil`) and the
balancer afterwards. -/
def AddBackend (parse : String → Except String String) (lb : LoadBalancer)
    (backendURL : String) (now : Int) : Option String × LoadBalancer :=
  match NewBackend parse backendURL now with
  | Except.error e => (some ("failed to create backend: " ++ e), lb)
  | Except.ok backend => (none, { lb with backends := lb.backends ++ [backend] })

/-- The loop `for i := 0; i < len(lb.backends); i++` of `getNextBackend`,
entered at counter `i` with `r = len - i` iterations left. `env idx` is what
the `IsAlive` call on pool member `idx` observes. The `none` branch of the
lookup cannot be taken: `idx < n = bs.length`. -/
def findHealthy (env : Nat → Obs) (index n : Nat) : Nat → Nat → List Backend → Sweep
  | 0, _, bs => ⟨none, bs, []⟩
  | r + 1, i, bs =>
    let idx := (index + i) % n
    match bs[idx]? with
    | none => ⟨none, bs, []⟩
    | some b =>
      let res := IsAlive b (env idx)
      let bs' := bs.set idx res.backend
      let ev := List.replicate res.probes (Event.probe idx)
      if res.alive then ⟨some idx, bs', ev⟩
      else
        let rest := findHealthy env index n r (i + 1) bs'
        ⟨rest.pick, rest.backends, ev ++ rest.trace⟩

/-- `LoadBalancer.getNextBackend`. -/
def getNextBackend (lb : LoadBalancer) (env : Nat → Obs) : Selection :=
  if lb.backends.length = 0 then ⟨none, lb, []⟩
  else
    let count := (lb.roundRobinCount + 1) % 2 ^ 64
    let index := count % lb.backends.length
    let s := findHealthy env index lb.backends.length lb.backends.length 0 lb.backends
    ⟨s.pick, { lb with roundRobinCount := count, backends := s.backends }, s.trace⟩

/-- `LoadBalancer.ServeHTTP`; `out` and `now` are what `Backend.Serve`
meets when it is invoked. The inner `none` branch cannot be taken: a
returned position is inside the pool. -/
def ServeHTTP (lb : LoadBalancer) (env : Nat → Obs) (out : ForwardOutcome) (now : Int) :
    Served :=
  let sel := getNextBackend lb env
  match sel.pick with
  | none => ⟨sel.lb, ⟨StatusServiceUnavailable, "No available backends\n"⟩, sel.trace⟩
  | some idx =>
    match sel.lb.backends[idx]? with
    | none => ⟨sel.lb, ⟨StatusServiceUnavailable, "No available backends\n"⟩, sel.trace⟩
    | some b =>
      let r := Serve b out now
      ⟨{ sel.lb with backends := sel.lb.backends.set idx r.1 }, r.2,
        sel.trace ++ [Event.forward idx]⟩

/-- Consecutive dispatches: `getNextBackend` called once per element of
`envs`, each call on the state the previous one left. -/
def dispatches : LoadBalancer → List (Nat → Obs) → Run
  | lb, [] => ⟨[], lb, []⟩
  | lb, e :: es =>
    let s := getNextBackend lb e
    let rest := dispatches s.lb es
    ⟨s.pick :: rest.picks, rest.lb, s.trace ++ rest.trace⟩

/-- The answer `IsAlive` gives for pool member `j` under `env`. -/
def answers (bs : List Backend) (env : Nat → Obs) (j : Nat) : Bool :=
  match bs[j]? with
  | some b => (IsAlive b (env j)).alive
  | none => false

/-- During the dispatches `envs` started from `lb`, pool member `j` answers
`alive j` whenever it would be asked. -/
def answersDuring (alive : Nat → Bool) : LoadBalancer → List (Nat → Obs) → Bool
  | _, [] => true
  | lb, e :: es =>
    (List.range lb.backends.length).all (fun j => answers lb.backends e j == alive j)
      && answersDuring alive (getNextBackend lb e).lb es

/-! ## Locks and network calls -/

/-- The locks of the program: `lb.mu`, and the `mux` of the pool member at
position `idx`. -/
inductive Mutex where
  | pool : Mutex
  | backend (idx : Nat) : Mutex
deriving DecidableEq, Repr

/-- What one goroutine does to locks and to the network, in program order:
`RLock`, `RUnlock`, `Lock`, `Unlock` on a mutex, the HEAD request of
`CheckHealth` against member `idx`, and the statement `go backend.CheckHealth()`
for member `idx`, which starts another goroutine. -/
inductive Act where
  | rlock (m : Mutex) : Act
  | runlock (m : Mutex) : Act
  | lock (m : Mutex) : Act
  | unlock (m : Mutex) : Act
  | head (idx : Nat) : Act
  | spawn (idx : Nat) : Act
deriving DecidableEq, Repr

/-- The actions of `Backend.SetAlive` on member `idx`. -/
def SetAliveActs (idx : Nat) : List Act :=
  [Act.lock (Mutex.backend idx), Act.unlock (Mutex.backend idx)]

/-- The actions of `Backend.CheckHealth` on member `idx`: the HEAD request,
then `SetAlive` on either branch. -/
def CheckHealthActs (idx : Nat) : List Act :=
  Act.head idx :: SetAliveActs idx

/-- The actions of `Backend.IsAlive` on member `idx` holding record `b`. -/
def IsAliveActs (idx : Nat) (b : Backend) (o : Obs) : List Act :=
  if o.now - b.lastChecked > b.checkTimeout then
    Act.rlock (Mutex.backend idx) :: Act.runlock (Mutex.backend idx) :: CheckHealthActs idx
  else
    [Act.rlock (Mutex.backend idx), Act.runlock (Mutex.backend idx)]

/-- The actions of the loop of `getNextBackend`; same recursion as
`findHealthy`. -/
def findHealthyActs (env : Nat → Obs) (index n : Nat) : Nat → Nat → List Backend → List Act
  | 0, _, _ => []
  | r + 1, i, bs =>
    let idx := (index + i) % n
    match bs[idx]? with
    | none => []
    | some b =>
      let res := IsAlive b (env idx)
      let acts := IsAliveActs idx b (env idx)
      if res.alive then acts
      else acts ++ findHealthyActs env index n r (i + 1) (bs.set idx res.backend)

/-- The actions of `LoadBalancer.getNextBackend`: `lb.mu.RLock()`, the body,
and the deferred `lb.mu.RUnlock()` on return. -/
def getNextBackendActs (lb : LoadBalancer) (env : Nat → Obs) : List Act :=
  Act.rlock Mutex.pool ::
    ((if lb.backends.length = 0 then []
      else findHealthyActs env ((lb.roundRobinCount + 1) % 2 ^ 64 % lb.backends.length)
        lb.backends.length lb.backends.length 0 lb.backends)
      ++ [Act.runlock Mutex.pool])

/-- The actions of the goroutine running `LoadBalancer.healthCheck` during one
tick of its ticker; each goroutine it starts runs `CheckHealthActs`. -/
def healthCheckActs (lb : LoadBalancer) : List Act :=
  Act.rlock Mutex.pool ::
    ((List.range lb.backends.length).map Act.spawn ++ [Act.runlock Mutex.pool])

/-- For every HEAD request in a goroutine's actions, the member probed and the
locks the goroutine holds at that moment, given the locks `held` at the start. -/
def locksAtProbes : List Mutex → List Act → List (Nat × List Mutex)
  | _, [] => []
  | held, Act.rlock m :: rest => locksAtProbes (m :: held) rest
  | held, Act.lock m :: rest => locksAtProbes (m :: held) rest
  | held, Act.runlock m :: rest => locksAtProbes (held.erase m) rest
  | held, Act.unlock m :: rest => locksAtProbes (held.erase m) rest
  | held, Act.head idx :: rest => (idx, held) :: locksAtProbes held rest
  | held, Act.spawn _ :: rest => locksAtProbes held rest

/-- The pool member an event concerns. -/
def eventMember : Event → Nat
  | Event.probe idx => idx
  | Event.forward idx => idx

/-! ## Predicates used in the statements -/

/-- The selection policy in the words of the specification: the first offset
`k` in `0 .. n-1` for which member `(start + k) mod n` is alive. -/
def firstAliveFrom (alive : Nat → Bool) (n start : Nat) : Option Nat :=
  ((List.range n).find? (fun k => alive ((start + k) % n))).map (fun k => (start + k) % n)

/-- Pool member `j` holds the pair committed by a failure at time `t`:
`Alive = false`, `lastChecked = t`, with cache window `T`. -/
def Demoted (bs : List Backend) (j : Nat) (t T : Int) : Prop :=
  ∃ b, bs[j]? = some b ∧ b.Alive = false ∧ b.lastChecked = t ∧ b.checkTimeout = T

/-- Success status in the words of the specification: a status of the HTTP
success class, 200 to 299. -/
def successStatus (code : Nat) : Bool :=
  decide (200 ≤ code ∧ code < 300)

/-- The probe completed with a success status, in the words of the
specification: no transport error or timeout, and a status of the success
class. -/
def completedWithSuccess : ProbeResult → Bool
  | ProbeResult.failed => false
  | ProbeResult.status code => successStatus code

/-- The number of consecutive members that are not alive immediately before
member `j` in cyclic order: positions `j-1`, `j-2`, ... modulo `n`. -/
def deadBefore (alive : Nat → Bool) (n j : Nat) : Nat :=
  ((List.range (n - 1)).takeWhile (fun i => !alive ((j + n - 1 - i) % n))).length

/-! ## Sample pools and worlds -/

/-- The constant `time.Millisecond`, in nanoseconds. -/
def Millisecond : Int := 1000000

/-- A backend as `NewBackend` creates it at time 0 for an address that parses
to `u`. -/
def freshBackend (u : String) : Backend :=
  { URL := u, Alive := true, lastChecked := 0, checkTimeout := 2 * Second }

/-- The pool `[A, B, C]` of the scenario, all members created at time 0, with
the cursor at `c`. -/
def poolABC (c : Nat) : LoadBalancer :=
  { port := ":8080", roundRobinCount := c,
    backends := [freshBackend "http://localhost:8081", freshBackend "http://localhost:8082",
      freshBackend "http://localhost:8083"] }

/-- A world in which every clock read by `time.Since` shows `now`, a commit
happens one millisecond later, and every probe answers 200 except those of
the members listed in `down`, which fail. -/
def envAt (now : Int) (down : List Nat) : Nat → Obs := fun j =>
  { now := now,
    resp := if j ∈ down then ProbeResult.failed else ProbeResult.status 200,
    commit := now + Millisecond }

/-- Three dispatches within the first cache window, every probe healthy. -/
def phaseAllUp : List (Nat → Obs) :=
  [envAt (100 * Millisecond) [], envAt (200 * Millisecond) [],
    envAt (300 * Millisecond) []]

/-- Three dispatches after the first cache window has expired, with the
probe of member 1 failing. -/
def phaseBDown : List (Nat → Obs) :=
  [envAt (3000 * Millisecond) [1], envAt (3100 * Millisecond) [1],
    envAt (3200 * Millisecond) [1]]

/-- A stand-in for `url.Parse` on sample addresses: rejects an address with
no scheme before the colon, accepts the rest unchanged. -/
def sampleParse (s : String) : Except String String :=
  if s = ":8081" then Except.error "missing protocol scheme"
  else Except.ok s

/-! ## Arithmetic of the cyclic probe -/

/-- Distinct loop counters below `n` reach distinct pool positions. -/
theorem add_mod_inj {n index i j : Nat} (hi : i < n) (hj : j < n)
    (h : (index + i) % n = (index + j) % n) : i = j := by
  have h1 : i ≡ j [MOD n] := Nat.ModEq.add_left_cancel' index h
  have h2 := h1
  unfold Nat.ModEq at h2
  rwa [Nat.mod_eq_of_lt hi, Nat.mod_eq_of_lt hj] at h2

/-- Every pool position is reached by some loop counter below `n`. -/
theorem offset_surj {n : Nat} (start : Nat) {j : Nat} (hj : j < n) :
    ∃ k, k < n ∧ (start + k) % n = j := by
  have hs : start % n < n := Nat.mod_lt _ (by omega)
  refine ⟨(j + n - start % n) % n, Nat.mod_lt _ (by omega), ?_⟩
  rw [Nat.add_mod, Nat.mod_mod, ← Nat.add_mod_mod, Nat.mod_mod, Nat.add_mod_mod]
  have : start % n + (j + n - start % n) = j + n := by omega
  rw [this, Nat.add_mod_right, Nat.mod_eq_of_lt hj]

/-- Without a wrap of the `uint64`, or when `n` divides `2 ^ 64`, reducing the
count modulo `2 ^ 64` does not change its residue modulo `n`. -/
theorem count_mod_no_wrap {c n t : Nat} (ht : t < n)
    (h : c + n < 2 ^ 64 ∨ n ∣ 2 ^ 64) : (c + 1 + t) % 2 ^ 64 % n = (c + 1 + t) % n := by
  rcases h with h | h
  · rw [Nat.mod_eq_of_lt (show c + 1 + t < 2 ^ 64 by omega)]
  · exact Nat.mod_mod_of_dvd _ h

theorem count_one_of_nodup_mem {a : Option Nat} :
    ∀ {l : List (Option Nat)}, l.Nodup → a ∈ l → l.count a = 1 := by
  intro l
  induction l with
  | nil => intro _ h; simp at h
  | cons x xs ih =>
    intro hd hmem
    rw [List.nodup_cons] at hd
    rw [List.count_cons]
    by_cases hx : x = a
    · subst hx
      rw [List.count_eq_zero_of_not_mem hd.1]
      simp
    · have hin : a ∈ xs := by
        rcases List.mem_cons.mp hmem with h | h
        · exact absurd h.symm hx
        · exact h
      rw [ih hd.2 hin]
      simp [hx]

/-! ## The liveness cache -/

theorem IsAlive_cached {b : Backend} {o : Obs} (h : o.now - b.lastChecked ≤ b.checkTimeout) :
    IsAlive b o = ⟨b.Alive, b, 0⟩ := by
  unfold IsAlive
  rw [if_neg (not_lt.mpr h)]

theorem IsAlive_stale {b : Backend} {o : Obs} (h : b.checkTimeout < o.now - b.lastChecked) :
    IsAlive b o = CheckHealth b o.resp o.commit := by
  unfold IsAlive
  rw [if_pos h]

theorem IsAlive_checkTimeout (b : Backend) (o : Obs) :
    (IsAlive b o).backend.checkTimeout = b.checkTimeout := by
  unfold IsAlive CheckHealth SetAlive
  split
  · split <;> rfl
  · rfl

/-! ## The selection policy -/

theorem find?_congr_on {α : Type} {p q : α → Bool} :
    ∀ (l : List α), (∀ x, x ∈ l → p x = q x) → l.find? p = l.find? q := by
  intro l
  induction l with
  | nil => intro _; rfl
  | cons a l ih =>
    intro h
    rw [List.find?_cons, List.find?_cons, h a (List.mem_cons_self a l),
      ih (fun x hx => h x (List.mem_cons_of_mem a hx))]

theorem firstAliveFrom_congr {p q : Nat → Bool} {n : Nat} (start : Nat)
    (h : ∀ j, j < n → p j = q j) : firstAliveFrom p n start = firstAliveFrom q n start := by
  unfold firstAliveFrom
  rw [find?_congr_on (List.range n)]
  intro k hk
  have hk' : k < n := List.mem_range.mp hk
  exact h _ (Nat.mod_lt _ (by omega))

theorem firstAliveFrom_eq_none {p : Nat → Bool} {n start : Nat} :
    firstAliveFrom p n start = none ↔ ∀ j, j < n → p j = false := by
  unfold firstAliveFrom
  rw [Option.map_eq_none', List.find?_eq_none]
  constructor
  · intro h j hj
    obtain ⟨k, hk, hkj⟩ := offset_surj start hj
    have := h k (List.mem_range.mpr hk)
    rw [hkj] at this
    simpa using this
  · intro h k hk
    have hk' : k < n := List.mem_range.mp hk
    simp [h _ (Nat.mod_lt (start + k) (by omega : 0 < n))]

theorem firstAliveFrom_some {p : Nat → Bool} {n start j : Nat}
    (h : firstAliveFrom p n start = some j) : j < n ∧ p j = true := by
  unfold firstAliveFrom at h
  rw [Option.map_eq_some'] at h
  obtain ⟨k, hk, hkj⟩ := h
  have hp := List.find?_some hk
  have hmem := List.mem_of_find?_eq_some hk
  have hk' : k < n := List.mem_range.mp hmem
  subst hkj
  exact ⟨Nat.mod_lt _ (by omega), hp⟩

theorem firstAliveFrom_least {p : Nat → Bool} {n start k : Nat} (hk : k < n)
    (hp : p ((start + k) % n) = true)
    (hlt : ∀ i, i < k → p ((start + i) % n) = false) :
    firstAliveFrom p n start = some ((start + k) % n) := by
  unfold firstAliveFrom
  rw [Option.map_eq_some']
  refine ⟨k, ?_, rfl⟩
  rw [List.find?_eq_some]
  refine ⟨hp, List.range k, List.range' (k + 1) (n - k - 1), ?_, ?_⟩
  · rw [List.range_eq_range', List.range_eq_range', ← List.range'_succ]
    have h1 : n = (n - k - 1 + 1) + k := by omega
    conv_lhs => rw [h1]
    rw [← List.range'_append_1]
    simp
  · intro a ha
    simp [hlt a (List.mem_range.mp ha)]

theorem firstAliveFrom_all_alive {n start : Nat} (hs : start < n) :
    firstAliveFrom (fun _ => true) n start = some start := by
  have h : firstAliveFrom (fun _ => true) n start = some ((start + 0) % n) :=
    firstAliveFrom_least (by omega : 0 < n) rfl (fun i hi => absurd hi (Nat.not_lt_zero i))
  rwa [Nat.add_zero, Nat.mod_eq_of_lt hs] at h

theorem firstAliveFrom_B_down :
    ∀ s, s < 3 → firstAliveFrom (fun j => decide (j ≠ 1)) 3 s = some (if s = 0 then 0 else 2) := by
  decide

/-! ## The probing loop -/

theorem findHealthy_length (env : Nat → Obs) (index n : Nat) :
    ∀ (r i : Nat) (bs : List Backend),
      (findHealthy env index n r i bs).backends.length = bs.length := by
  intro r
  induction r with
  | zero => intro i bs; simp [findHealthy]
  | succ r ih =>
    intro i bs
    rw [findHealthy]
    cases hb : bs[(index + i) % n]? with
    | none => simp
    | some b =>
      simp only
      split
      · simp
      · simp [ih]

/-- The loop returns the position found by searching the remaining offsets in
order, judged by the answers of the records the call started from: a position
not yet visited still holds its original record. -/
theorem findHealthy_pick (env : Nat → Obs) (index n : Nat) (orig : List Backend)
    (hn : orig.length = n) :
    ∀ (r i : Nat) (bs : List Backend), i + r = n → bs.length = n →
      (∀ k, i ≤ k → k < n → bs[(index + k) % n]? = orig[(index + k) % n]?) →
      (findHealthy env index n r i bs).pick =
        ((List.range' i r).find? (fun k => answers orig env ((index + k) % n))).map
          (fun k => (index + k) % n) := by
  intro r
  induction r with
  | zero => intro i bs _ _ _; simp [findHealthy]
  | succ r ih =>
    intro i bs hir hlen hinv
    have hi : i < n := by omega
    have hidx : (index + i) % n < n := Nat.mod_lt _ (by omega)
    have hget : bs[(index + i) % n]? = orig[(index + i) % n]? := hinv i le_rfl hi
    have hb : orig[(index + i) % n]? = some (orig[(index + i) % n]) :=
      List.getElem?_eq_getElem (by omega)
    have hans : answers orig env ((index + i) % n)
        = (IsAlive (orig[(index + i) % n]) (env ((index + i) % n))).alive := by
      simp [answers, hb]
    rw [findHealthy, List.range'_succ, List.find?_cons]
    simp only [hget, hb, hans]
    cases ha : (IsAlive (orig[(index + i) % n]) (env ((index + i) % n))).alive with
    | true => simp
    | false =>
      simp only [Bool.false_eq_true, if_false]
      apply ih (i + 1) _ (by omega) (by simp [hlen])
      intro k hk hkn
      rw [← hinv k (by omega) hkn]
      apply List.getElem?_set_ne
      intro hEq
      have := add_mod_inj hi hkn hEq
      omega

/-- After the loop every position holds either its original record or the
record its own `IsAlive` call left. -/
theorem findHealthy_backends (env : Nat → Obs) (index n : Nat) (orig : List Backend)
    (hn : orig.length = n) :
    ∀ (r i : Nat) (bs : List Backend), i + r = n → bs.length = n →
      (∀ k, i ≤ k → k < n → bs[(index + k) % n]? = orig[(index + k) % n]?) →
      (∀ j, bs[j]? = orig[j]? ∨
        ∃ b, orig[j]? = some b ∧ bs[j]? = some (IsAlive b (env j)).backend) →
      ∀ j, (findHealthy env index n r i bs).backends[j]? = orig[j]? ∨
        ∃ b, orig[j]? = some b ∧
          (findHealthy env index n r i bs).backends[j]? = some (IsAlive b (env j)).backend := by
  intro r
  induction r with
  | zero => intro i bs _ _ _ hP j; simpa [findHealthy] using hP j
  | succ r ih =>
    intro i bs hir hlen hinv hP
    have hi : i < n := by omega
    have hidx : (index + i) % n < n := Nat.mod_lt _ (by omega)
    have hget : bs[(index + i) % n]? = orig[(index + i) % n]? := hinv i le_rfl hi
    have hb : orig[(index + i) % n]? = some (orig[(index + i) % n]) :=
      List.getElem?_eq_getElem (by omega)
    have hP' : ∀ j, (bs.set ((index + i) % n)
          (IsAlive (orig[(index + i) % n]) (env ((index + i) % n))).backend)[j]? = orig[j]? ∨
        ∃ b, orig[j]? = some b ∧
          (bs.set ((index + i) % n)
            (IsAlive (orig[(index + i) % n]) (env ((index + i) % n))).backend)[j]?
              = some (IsAlive b (env j)).backend := by
      intro j
      by_cases hj : (index + i) % n = j
      · subst hj
        right
        exact ⟨_, hb, List.getElem?_set_self (by omega)⟩
      · rw [List.getElem?_set_ne hj]
        exact hP j
    rw [findHealthy]
    simp only [hget, hb]
    cases ha : (IsAlive (orig[(index + i) % n]) (env ((index + i) % n))).alive with
    | true => simpa using hP'
    | false =>
      simp only [Bool.false_eq_true, if_false]
      apply ih (i + 1) _ (by omega) (by simp [hlen]) _ hP'
      intro k hk hkn
      rw [← hinv k (by omega) hkn]
      apply List.getElem?_set_ne
      intro hEq
      have := add_mod_inj hi hkn hEq
      omega

/-- Every event of the loop is a probe of a member whose `IsAlive` call issued
one. -/
theorem findHealthy_trace (env : Nat → Obs) (index n : Nat) (orig : List Backend)
    (hn : orig.length = n) :
    ∀ (r i : Nat) (bs : List Backend), i + r = n → bs.length = n →
      (∀ k, i ≤ k → k < n → bs[(index + k) % n]? = orig[(index + k) % n]?) →
      ∀ ev, ev ∈ (findHealthy env index n r i bs).trace →
        ∃ j b, ev = Event.probe j ∧ orig[j]? = some b ∧ 0 < (IsAlive b (env j)).probes := by
  intro r
  induction r with
  | zero => intro i bs _ _ _ ev hev; simp [findHealthy] at hev
  | succ r ih =>
    intro i bs hir hlen hinv ev
    have hi : i < n := by omega
    have hidx : (index + i) % n < n := Nat.mod_lt _ (by omega)
    have hget : bs[(index + i) % n]? = orig[(index + i) % n]? := hinv i le_rfl hi
    have hb : orig[(index + i) % n]? = some (orig[(index + i) % n]) :=
      List.getElem?_eq_getElem (by omega)
    have hhere : ev ∈ List.replicate
          (IsAlive (orig[(index + i) % n]) (env ((index + i) % n))).probes
          (Event.probe ((index + i) % n)) →
        ∃ j b, ev = Event.probe j ∧ orig[j]? = some b ∧ 0 < (IsAlive b (env j)).probes := by
      intro hev
      rw [List.mem_replicate] at hev
      exact ⟨_, _, hev.2, hb, Nat.pos_of_ne_zero hev.1⟩
    rw [findHealthy]
    simp only [hget, hb]
    cases ha : (IsAlive (orig[(index + i) % n]) (env ((index + i) % n))).alive with
    | true => simpa using hhere
    | false =>
      simp only [Bool.false_eq_true, if_false, List.mem_append]
      rintro (hev | hev)
      · exact hhere hev
      · refine ih (i + 1) _ (by omega) (by simp [hlen]) ?_ ev hev
        intro k hk hkn
        rw [← hinv k (by omega) hkn]
        apply List.getElem?_set_ne
        intro hEq
        have := add_mod_inj hi hkn hEq
        omega

/-! ## One dispatch -/

theorem getNextBackend_empty {lb : LoadBalancer} (env : Nat → Obs)
    (h : lb.backends.length = 0) : getNextBackend lb env = ⟨none, lb, []⟩ := by
  unfold getNextBackend
  rw [if_pos h]

/-- On a non-empty pool `getNextBackend` refines the selection policy, started
at the incremented cursor modulo the pool size. -/
theorem getNextBackend_pick {lb : LoadBalancer} (env : Nat → Obs)
    (h : lb.backends.length ≠ 0) :
    (getNextBackend lb env).pick =
      firstAliveFrom (answers lb.backends env) lb.backends.length
        ((lb.roundRobinCount + 1) % 2 ^ 64 % lb.backends.length) := by
  unfold getNextBackend firstAliveFrom
  rw [if_neg h, List.range_eq_range']
  exact findHealthy_pick env _ _ lb.backends rfl _ 0 lb.backends (by omega) rfl
    (fun _ _ _ => rfl)

theorem getNextBackend_length (lb : LoadBalancer) (env : Nat → Obs) :
    (getNextBackend lb env).lb.backends.length = lb.backends.length := by
  unfold getNextBackend
  split
  · rfl
  · exact findHealthy_length env _ _ _ 0 lb.backends

theorem getNextBackend_count {lb : LoadBalancer} (env : Nat → Obs)
    (h : lb.backends.length ≠ 0) :
    (getNextBackend lb env).lb.roundRobinCount = (lb.roundRobinCount + 1) % 2 ^ 64 := by
  unfold getNextBackend
  rw [if_neg h]

theorem getNextBackend_backends (lb : LoadBalancer) (env : Nat → Obs) (j : Nat) :
    (getNextBackend lb env).lb.backends[j]? = lb.backends[j]? ∨
      ∃ b, lb.backends[j]? = some b ∧
        (getNextBackend lb env).lb.backends[j]? = some (IsAlive b (env j)).backend := by
  unfold getNextBackend
  split
  · exact Or.inl rfl
  · exact findHealthy_backends env _ _ lb.backends rfl _ 0 lb.backends (by omega) rfl
      (fun _ _ _ => rfl) (fun _ => Or.inl rfl) j

theorem getNextBackend_trace (lb : LoadBalancer) (env : Nat → Obs) (ev : Event)
    (hev : ev ∈ (getNextBackend lb env).trace) :
    ∃ j b, ev = Event.probe j ∧ lb.backends[j]? = some b ∧ 0 < (IsAlive b (env j)).probes := by
  unfold getNextBackend at hev
  split at hev
  · simp at hev
  · exact findHealthy_trace env _ _ lb.backends rfl _ 0 lb.backends (by omega) rfl
      (fun _ _ _ => rfl) ev hev

theorem getNextBackend_none_of_dead {lb : LoadBalancer} {env : Nat → Obs}
    (h : ∀ j, j < lb.backends.length → answers lb.backends env j = false) :
    (getNextBackend lb env).pick = none := by
  by_cases hn : lb.backends.length = 0
  · rw [getNextBackend_empty env hn]
  · rw [getNextBackend_pick env hn]
    exact firstAliveFrom_eq_none.mpr h

theorem pick_other_alive {lb : LoadBalancer} {env : Nat → Obs} {j : Nat}
    (hdead : answers lb.backends env j = false)
    (hsome : ∃ k, answers lb.backends env k = true) :
    ∃ k, k ≠ j ∧ (getNextBackend lb env).pick = some k ∧ answers lb.backends env k = true := by
  obtain ⟨k, hk⟩ := hsome
  have hkn : k < lb.backends.length := by
    by_contra hge
    unfold answers at hk
    rw [List.getElem?_eq_none (by omega)] at hk
    exact Bool.noConfusion hk
  have hpick : (getNextBackend lb env).pick = _ := getNextBackend_pick env (by omega)
  cases h : (getNextBackend lb env).pick with
  | none =>
    rw [hpick] at h
    have := firstAliveFrom_eq_none.mp h k hkn
    rw [hk] at this
    exact Bool.noConfusion this
  | some i =>
    rw [hpick] at h
    obtain ⟨_, hi⟩ := firstAliveFrom_some h
    refine ⟨i, ?_, rfl, hi⟩
    intro hij
    rw [hij, hdead] at hi
    exact Bool.noConfusion hi

/-! ## Consecutive dispatches -/

theorem answersDuring_cons {alive : Nat → Bool} {lb : LoadBalancer} {e : Nat → Obs}
    {es : List (Nat → Obs)} (h : answersDuring alive lb (e :: es) = true) :
    (∀ j, j < lb.backends.length → answers lb.backends e j = alive j) ∧
      answersDuring alive (getNextBackend lb e).lb es = true := by
  unfold answersDuring at h
  rw [Bool.and_eq_true, List.all_eq_true] at h
  refine ⟨fun j hj => ?_, h.2⟩
  have := h.1 j (List.mem_range.mpr hj)
  simpa using this

/-- When the members answer `alive` throughout, dispatch number `t` selects
what the selection policy selects from the cursor advanced `t + 1` times. -/
theorem dispatches_picks (alive : Nat → Bool) :
    ∀ (envs : List (Nat → Obs)) (lb : LoadBalancer), lb.backends.length ≠ 0 →
      answersDuring alive lb envs = true →
      (dispatches lb envs).picks = (List.range envs.length).map (fun t =>
        firstAliveFrom alive lb.backends.length
          ((lb.roundRobinCount + 1 + t) % 2 ^ 64 % lb.backends.length)) := by
  intro envs
  induction envs with
  | nil => intro lb _ _; simp [dispatches]
  | cons e es ih =>
    intro lb hn h
    obtain ⟨hnow, hrest⟩ := answersDuring_cons h
    have hlen := getNextBackend_length lb e
    rw [dispatches, List.length_cons, List.range_succ_eq_map, List.map_cons, List.map_map]
    simp only
    rw [ih (getNextBackend lb e).lb (by omega) hrest, getNextBackend_pick e hn,
      firstAliveFrom_congr _ hnow, hlen, getNextBackend_count e hn]
    congr 1
    apply List.map_congr_left
    intro t _
    simp only [Function.comp]
    congr 2
    omega

theorem dispatches_length :
    ∀ (envs : List (Nat → Obs)) (lb : LoadBalancer),
      (dispatches lb envs).lb.backends.length = lb.backends.length := by
  intro envs
  induction envs with
  | nil => intro lb; rfl
  | cons e es ih =>
    intro lb
    rw [dispatches]
    exact (ih _).trans (getNextBackend_length lb e)

theorem dispatches_cursor :
    ∀ (envs : List (Nat → Obs)) (lb : LoadBalancer), lb.backends.length ≠ 0 →
      lb.roundRobinCount < 2 ^ 64 →
      (dispatches lb envs).lb.roundRobinCount = (lb.roundRobinCount + envs.length) % 2 ^ 64 := by
  intro envs
  induction envs with
  | nil => intro lb _ hc; exact (Nat.mod_eq_of_lt hc).symm
  | cons e es ih =>
    intro lb hn hc
    have hlen := getNextBackend_length lb e
    rw [dispatches]
    simp only
    rw [ih (getNextBackend lb e).lb (by omega)
      (by rw [getNextBackend_count e hn]; exact Nat.mod_lt _ (by decide)),
      getNextBackend_count e hn, List.length_cons]
    omega

theorem picks_all_alive {lb : LoadBalancer} {envs : List (Nat → Obs)}
    (hn : 1 ≤ lb.backends.length) (hlen : envs.length = lb.backends.length)
    (halive : answersDuring (fun _ => true) lb envs = true)
    (hwrap : lb.roundRobinCount + lb.backends.length < 2 ^ 64 ∨ lb.backends.length ∣ 2 ^ 64) :
    (dispatches lb envs).picks = (List.range lb.backends.length).map
      (fun t => some ((lb.roundRobinCount + 1 + t) % lb.backends.length)) := by
  rw [dispatches_picks _ envs lb (by omega) halive, hlen]
  apply List.map_congr_left
  intro t ht
  rw [firstAliveFrom_all_alive (Nat.mod_lt _ (by omega)),
    count_mod_no_wrap (List.mem_range.mp ht) hwrap]

/-! ## Demotion after a forwarding failure -/

/-- A dispatch inside the cache window of a demoted member leaves it demoted,
gets the answer false from it and does not probe it. -/
theorem demoted_step {lb : LoadBalancer} {env : Nat → Obs} {j : Nat} {t T : Int}
    (hd : Demoted lb.backends j t T) (hfresh : (env j).now - t ≤ T) :
    Demoted (getNextBackend lb env).lb.backends j t T ∧
      answers lb.backends env j = false ∧
      Event.probe j ∉ (getNextBackend lb env).trace := by
  obtain ⟨b, hb, hA, hL, hT⟩ := hd
  have hc : IsAlive b (env j) = ⟨b.Alive, b, 0⟩ := IsAlive_cached (by rw [hL, hT]; exact hfresh)
  refine ⟨?_, ?_, ?_⟩
  · rcases getNextBackend_backends lb env j with h | ⟨b', hb', h⟩
    · exact ⟨b, h.trans hb, hA, hL, hT⟩
    · rw [hb] at hb'
      cases hb'
      rw [hc] at h
      exact ⟨b, h, hA, hL, hT⟩
  · unfold answers
    rw [hb]
    simp only [hc, hA]
  · intro hmem
    obtain ⟨i, b', hev, hb', hpos⟩ := getNextBackend_trace lb env _ hmem
    cases hev
    rw [hb] at hb'
    cases hb'
    rw [hc] at hpos
    exact Nat.lt_irrefl 0 hpos

theorem demoted_run {j : Nat} {t T : Int} :
    ∀ (envs : List (Nat → Obs)) (lb : LoadBalancer), Demoted lb.backends j t T →
      (∀ e, e ∈ envs → (e j).now - t ≤ T) →
      Demoted (dispatches lb envs).lb.backends j t T := by
  intro envs
  induction envs with
  | nil => intro lb hd _; exact hd
  | cons e es ih =>
    intro lb hd hfresh
    rw [dispatches]
    exact ih _ (demoted_step hd (hfresh e (List.mem_cons_self e es))).1
      (fun e' he' => hfresh e' (List.mem_cons_of_mem e he'))

/-- A failed forward to member `j` leaves `j` demoted at the time the error
handler ran. -/
theorem serve_failure_demotes {lb : LoadBalancer} {env : Nat → Obs} {j : Nat} {b : Backend}
    {t : Int} (hj : lb.backends[j]? = some b)
    (hfwd : Event.forward j ∈ (ServeHTTP lb env ForwardOutcome.failed t).trace) :
    Demoted (ServeHTTP lb env ForwardOutcome.failed t).lb.backends j t b.checkTimeout := by
  have hnofwd : Event.forward j ∉ (getNextBackend lb env).trace := by
    intro hmem
    obtain ⟨i, b', hev, _⟩ := getNextBackend_trace lb env _ hmem
    exact Event.noConfusion hev
  unfold ServeHTTP at hfwd ⊢
  cases hp : (getNextBackend lb env).pick with
  | none =>
    simp only [hp] at hfwd
    exact absurd hfwd hnofwd
  | some idx =>
    simp only [hp] at hfwd ⊢
    cases hb : (getNextBackend lb env).lb.backends[idx]? with
    | none =>
      simp only [hb] at hfwd
      exact absurd hfwd hnofwd
    | some b' =>
      simp only [hb] at hfwd ⊢
      rw [List.mem_append] at hfwd
      rcases hfwd with h | h
      · exact absurd h hnofwd
      · rw [List.mem_singleton] at h
        cases h
        have hlt : j < (getNextBackend lb env).lb.backends.length := by
          by_contra hge
          rw [List.getElem?_eq_none (by omega)] at hb
          exact Option.noConfusion hb
        have hT : b'.checkTimeout = b.checkTimeout := by
          rcases getNextBackend_backends lb env j with h | ⟨b0, hb0, h⟩
          · rw [hb, hj] at h
            cases h
            rfl
          · rw [hj] at hb0
            cases hb0
            rw [hb] at h
            cases h
            exact IsAlive_checkTimeout _ _
        exact ⟨_, List.getElem?_set_self hlt, rfl, rfl, hT⟩

/-! ## C1: round-robin fairness -/

/-- C1 (as stated, refuted): with the cursor at `2 ^ 64 - 2` and all three
members answering alive, three consecutive dispatches select member 0 twice
and member 2 never. -/
theorem round_robin_repeats_at_wrap :
    1 ≤ (poolABC (2 ^ 64 - 2)).backends.length ∧
    answersDuring (fun _ => true) (poolABC (2 ^ 64 - 2)) phaseAllUp = true ∧
    (dispatches (poolABC (2 ^ 64 - 2)) phaseAllUp).picks = [some 0, some 0, some 1] ∧
    ¬ (∀ j, j < (poolABC (2 ^ 64 - 2)).backends.length →
      (dispatches (poolABC (2 ^ 64 - 2)) phaseAllUp).picks.count (some j) = 1) := by
  refine ⟨by decide, by decide, by decide, ?_⟩
  intro h
  exact absurd (h 0 (by decide)) (by decide)

/-- C1 (amended): in a pool of `n ≥ 1` backends that all answer alive, `n`
consecutive dispatches select every pool index exactly once, provided the
`uint64` cursor does not wrap during them (or `n` divides `2 ^ 64`). -/
theorem round_robin_fairness (lb : LoadBalancer) (envs : List (Nat → Obs))
    (hn : 1 ≤ lb.backends.length) (hlen : envs.length = lb.backends.length)
    (halive : answersDuring (fun _ => true) lb envs = true)
    (hwrap : lb.roundRobinCount + lb.backends.length < 2 ^ 64 ∨ lb.backends.length ∣ 2 ^ 64) :
    ∀ j, j < lb.backends.length → (dispatches lb envs).picks.count (some j) = 1 := by
  intro j hj
  rw [picks_all_alive hn hlen halive hwrap]
  apply count_one_of_nodup_mem
  · apply List.Nodup.map_on _ (List.nodup_range _)
    intro a ha b hb hab
    exact add_mod_inj (List.mem_range.mp ha) (List.mem_range.mp hb) (Option.some.inj hab)
  · obtain ⟨k, hk, hkj⟩ := offset_surj (lb.roundRobinCount + 1) hj
    exact List.mem_map.mpr ⟨k, List.mem_range.mpr hk, congrArg some hkj⟩

/-- Witness for C1 (amended): the pool `[A, B, C]` with the cursor at 0. -/
theorem round_robin_fairness_witness :
    1 ≤ (poolABC 0).backends.length ∧
    phaseAllUp.length = (poolABC 0).backends.length ∧
    answersDuring (fun _ => true) (poolABC 0) phaseAllUp = true ∧
    ((poolABC 0).roundRobinCount + (poolABC 0).backends.length < 2 ^ 64 ∨
      (poolABC 0).backends.length ∣ 2 ^ 64) ∧
    ∀ j, j < (poolABC 0).backends.length →
      (dispatches (poolABC 0) phaseAllUp).picks.count (some j) = 1 :=
  ⟨by decide, rfl, by decide, Or.inl (by decide),
    round_robin_fairness (poolABC 0) phaseAllUp (by decide) rfl (by decide)
      (Or.inl (by decide))⟩

/-! ## C2: first alive backend in cyclic order -/

/-- C2: `getNextBackend` on a non-empty pool returns the member at
`(start + k) mod n` for the least offset `k` whose `IsAlive` answers true,
returns a member exactly when some member answers true, and never returns a
member that answers false. -/
theorem getNextBackend_first_alive (lb : LoadBalancer) (env : Nat → Obs)
    (hn : 1 ≤ lb.backends.length) :
    (∀ k, k < lb.backends.length →
      answers lb.backends env
        (((lb.roundRobinCount + 1) % 2 ^ 64 % lb.backends.length + k) % lb.backends.length)
          = true →
      (∀ i, i < k → answers lb.backends env
        (((lb.roundRobinCount + 1) % 2 ^ 64 % lb.backends.length + i) % lb.backends.length)
          = false) →
      (getNextBackend lb env).pick = some
        (((lb.roundRobinCount + 1) % 2 ^ 64 % lb.backends.length + k) % lb.backends.length)) ∧
    ((getNextBackend lb env).pick.isSome = true ↔
      ∃ j, j < lb.backends.length ∧ answers lb.backends env j = true) ∧
    (∀ j, (getNextBackend lb env).pick = some j →
      j < lb.backends.length ∧ answers lb.backends env j = true) := by
  have hpick : (getNextBackend lb env).pick = _ := getNextBackend_pick env (by omega)
  refine ⟨fun k hk ha hlt => ?_, ?_, fun j hj => ?_⟩
  · rw [hpick]
    exact firstAliveFrom_least hk ha hlt
  · rw [hpick]
    constructor
    · intro h
      obtain ⟨j, hj⟩ := Option.isSome_iff_exists.mp h
      exact ⟨j, firstAliveFrom_some hj⟩
    · rintro ⟨j, hj, ha⟩
      rw [Option.isSome_iff_ne_none]
      intro hnone
      have := firstAliveFrom_eq_none.mp hnone j hj
      rw [ha] at this
      exact Bool.noConfusion this
  · rw [hpick] at hj
    exact firstAliveFrom_some hj

/-- Witness for C2: with member 1 failing its probe
and the cursor at 0 the search starts at 1 and returns member 2. -/
theorem getNextBackend_first_alive_witness :
    1 ≤ (poolABC 0).backends.length ∧
    (getNextBackend (poolABC 0) (envAt (3000 * Millisecond) [1])).pick = some 2 :=
  ⟨by decide,
    (getNextBackend_first_alive (poolABC 0) (envAt (3000 * Millisecond) [1])
      (by decide)).1 1 (by decide) (by decide) (by decide)⟩

/-! ## C3: a single alive backend -/

/-- C3: when exactly one member of a non-empty pool answers alive,
`getNextBackend` selects that member, whatever the cursor. -/
theorem sole_alive_selected (lb : LoadBalancer) (env : Nat → Obs) (j : Nat)
    (hj : j < lb.backends.length) (halive : answers lb.backends env j = true)
    (hothers : ∀ k, k < lb.backends.length → k ≠ j → answers lb.backends env k = false) :
    (getNextBackend lb env).pick = some j := by
  rw [getNextBackend_pick env (by omega)]
  cases h : firstAliveFrom (answers lb.backends env) lb.backends.length
      ((lb.roundRobinCount + 1) % 2 ^ 64 % lb.backends.length) with
  | none =>
    have := firstAliveFrom_eq_none.mp h j hj
    rw [halive] at this
    exact Bool.noConfusion this
  | some k =>
    obtain ⟨hk, ha⟩ := firstAliveFrom_some h
    by_cases hkj : k = j
    · rw [hkj]
    · rw [hothers k hk hkj] at ha
      exact Bool.noConfusion ha

/-- Witness for C3: only member 2 passes its probe. -/
theorem sole_alive_selected_witness :
    2 < (poolABC 7).backends.length ∧
    answers (poolABC 7).backends (envAt (3000 * Millisecond) [0, 1]) 2 = true ∧
    (∀ k, k < (poolABC 7).backends.length → k ≠ 2 →
      answers (poolABC 7).backends (envAt (3000 * Millisecond) [0, 1]) k = false) ∧
    (getNextBackend (poolABC 7) (envAt (3000 * Millisecond) [0, 1])).pick = some 2 :=
  ⟨by decide, by decide, by decide,
    sole_alive_selected (poolABC 7) (envAt (3000 * Millisecond) [0, 1]) 2 (by decide)
      (by decide) (by decide)⟩

/-! ## C4: no backend alive -/

/-- C4: when no member answers alive (in particular when the pool is empty),
`getNextBackend` returns no backend and `ServeHTTP` answers 503 "No available
backends" without invoking `Serve` on any member. -/
theorem no_backend_alive_unavailable (lb : LoadBalancer) (env : Nat → Obs)
    (out : ForwardOutcome) (now : Int)
    (h : ∀ j, j < lb.backends.length → answers lb.backends env j = false) :
    (getNextBackend lb env).pick = none ∧
    (ServeHTTP lb env out now).response = ⟨503, "No available backends\n"⟩ ∧
    (∀ j, Event.forward j ∉ (ServeHTTP lb env out now).trace) ∧
    (ServeHTTP lb env out now).lb = (getNextBackend lb env).lb := by
  have hpick := getNextBackend_none_of_dead h
  have hserve : ServeHTTP lb env out now =
      ⟨(getNextBackend lb env).lb, ⟨StatusServiceUnavailable, "No available backends\n"⟩,
        (getNextBackend lb env).trace⟩ := by
    unfold ServeHTTP
    simp only [hpick]
  refine ⟨hpick, ?_, ?_, ?_⟩
  · rw [hserve]; rfl
  · intro j hmem
    rw [hserve] at hmem
    obtain ⟨i, b, hev, _⟩ := getNextBackend_trace lb env _ hmem
    exact Event.noConfusion hev
  · rw [hserve]

/-- Witness for C4: every probe of `[A, B, C]` fails. -/
theorem no_backend_alive_unavailable_witness :
    (∀ j, j < (poolABC 0).backends.length →
      answers (poolABC 0).backends (envAt (3000 * Millisecond) [0, 1, 2]) j = false) ∧
    (ServeHTTP (poolABC 0) (envAt (3000 * Millisecond) [0, 1, 2])
      (ForwardOutcome.delivered ⟨200, "ok"⟩) (3001 * Millisecond)).response.status = 503 :=
  ⟨by decide,
    congrArg Response.status
      (no_backend_alive_unavailable (poolABC 0) (envAt (3000 * Millisecond) [0, 1, 2])
        (ForwardOutcome.delivered ⟨200, "ok"⟩) (3001 * Millisecond) (by decide)).2.1⟩

/-! ## C5: the cache window of IsAlive -/

/-- C5 (as stated, refuted): at `now - lastChecked = checkTimeout` exactly,
`IsAlive` issues no probe and returns the cached `true`, although a fresh
check would have returned `false`. -/
theorem isAlive_at_window_uses_cache :
    (2 * Second - (freshBackend "http://localhost:8081").lastChecked
      ≥ (freshBackend "http://localhost:8081").checkTimeout) ∧
    (IsAlive (freshBackend "http://localhost:8081")
      ⟨2 * Second, ProbeResult.failed, 2 * Second + Millisecond⟩).probes = 0 ∧
    (IsAlive (freshBackend "http://localhost:8081")
      ⟨2 * Second, ProbeResult.failed, 2 * Second + Millisecond⟩).alive = true ∧
    (CheckHealth (freshBackend "http://localhost:8081") ProbeResult.failed
      (2 * Second + Millisecond)).alive = false := by
  decide

/-- C5 (amended): `IsAlive` returns the cached `Alive` without probing and
without touching the record while `now - lastChecked ≤ checkTimeout`; once
`now - lastChecked > checkTimeout` it performs exactly one `CheckHealth` (one
HEAD request) and returns what that check returns and commits. -/
theorem isAlive_cache_window (b : Backend) (o : Obs) :
    (o.now - b.lastChecked ≤ b.checkTimeout →
      (IsAlive b o).alive = b.Alive ∧ (IsAlive b o).backend = b ∧ (IsAlive b o).probes = 0) ∧
    (b.checkTimeout < o.now - b.lastChecked →
      IsAlive b o = CheckHealth b o.resp o.commit ∧ (IsAlive b o).probes = 1) := by
  constructor
  · intro h
    rw [IsAlive_cached h]
    exact ⟨rfl, rfl, rfl⟩
  · intro h
    rw [IsAlive_stale h]
    refine ⟨rfl, ?_⟩
    unfold CheckHealth
    split <;> rfl

/-- Witness for C5 (amended): one call inside the window and one
after it. -/
theorem isAlive_cache_window_witness :
    ((Second - (freshBackend "http://localhost:8081").lastChecked
        ≤ (freshBackend "http://localhost:8081").checkTimeout) ∧
      (IsAlive (freshBackend "http://localhost:8081")
        ⟨Second, ProbeResult.failed, Second⟩).probes = 0) ∧
    (((freshBackend "http://localhost:8081").checkTimeout
        < 3 * Second - (freshBackend "http://localhost:8081").lastChecked) ∧
      (IsAlive (freshBackend "http://localhost:8081")
        ⟨3 * Second, ProbeResult.failed, 3 * Second⟩).probes = 1) :=
  ⟨⟨by decide,
      ((isAlive_cache_window (freshBackend "http://localhost:8081")
        ⟨Second, ProbeResult.failed, Second⟩).1 (by decide)).2.2⟩,
    ⟨by decide,
      ((isAlive_cache_window (freshBackend "http://localhost:8081")
        ⟨3 * Second, ProbeResult.failed, 3 * Second⟩).2 (by decide)).2⟩⟩

/-! ## C6: the scenario with B failing -/

/-- C6 (as stated, refuted): starting from a fresh balancer over `[A, B, C]`,
after three dispatches with all members alive and with B failing from then
on, the next three dispatches select C, C, A, which is neither A, C, A nor
C, A, C. -/
theorem scenario_B_down_selects_C_twice :
    answersDuring (fun _ => true) (poolABC 0) phaseAllUp = true ∧
    answersDuring (fun j => decide (j ≠ 1)) (dispatches (poolABC 0) phaseAllUp).lb phaseBDown
      = true ∧
    (dispatches (poolABC 0) phaseAllUp).picks = [some 1, some 2, some 0] ∧
    (dispatches (dispatches (poolABC 0) phaseAllUp).lb phaseBDown).picks
      = [some 2, some 2, some 0] ∧
    (dispatches (dispatches (poolABC 0) phaseAllUp).lb phaseBDown).picks
      ≠ [some 0, some 2, some 0] ∧
    (dispatches (dispatches (poolABC 0) phaseAllUp).lb phaseBDown).picks
      ≠ [some 2, some 0, some 2] := by
  decide

/-- C6 (amended): in a pool `[A, B, C]`, after three dispatches with all
members alive, if B then answers not alive while A and C answer alive, the
next three dispatches never select B and always select A or C; while the
cursor does not wrap the sequence is C, C, A or C, A, C or A, C, C according
to the cursor modulo 3: C, which follows B in the pool, is selected twice. -/
theorem scenario_B_down (lb : LoadBalancer) (envs1 envs2 : List (Nat → Obs))
    (hn : lb.backends.length = 3) (h1 : envs1.length = 3) (h2 : envs2.length = 3)
    (hall : answersDuring (fun _ => true) lb envs1 = true)
    (hB : answersDuring (fun j => decide (j ≠ 1)) (dispatches lb envs1).lb envs2 = true) :
    (∀ p, p ∈ (dispatches (dispatches lb envs1).lb envs2).picks → p = some 0 ∨ p = some 2) ∧
    (lb.roundRobinCount + 6 < 2 ^ 64 →
      (dispatches lb envs1).picks = [some ((lb.roundRobinCount + 1 + 0) % 3),
        some ((lb.roundRobinCount + 1 + 1) % 3), some ((lb.roundRobinCount + 1 + 2) % 3)] ∧
      (lb.roundRobinCount % 3 = 0 →
        (dispatches (dispatches lb envs1).lb envs2).picks = [some 2, some 2, some 0]) ∧
      (lb.roundRobinCount % 3 = 1 →
        (dispatches (dispatches lb envs1).lb envs2).picks = [some 2, some 0, some 2]) ∧
      (lb.roundRobinCount % 3 = 2 →
        (dispatches (dispatches lb envs1).lb envs2).picks = [some 0, some 2, some 2])) := by
  have hlen : (dispatches lb envs1).lb.backends.length = 3 := by
    rw [dispatches_length, hn]
  have hpicks := dispatches_picks _ envs2 (dispatches lb envs1).lb (by omega) hB
  rw [hlen, h2] at hpicks
  constructor
  · intro p hp
    rw [hpicks, List.mem_map] at hp
    obtain ⟨t, _, rfl⟩ := hp
    rw [firstAliveFrom_B_down _ (Nat.mod_lt _ (by decide))]
    split
    · exact Or.inl rfl
    · exact Or.inr rfl
  · intro hwrap
    have hcur : (dispatches lb envs1).lb.roundRobinCount = lb.roundRobinCount + 3 := by
      rw [dispatches_cursor envs1 lb (by omega) (by omega), h1]
      exact Nat.mod_eq_of_lt (by omega)
    rw [hpicks, hcur]
    have hr : List.range 3 = [0, 1, 2] := rfl
    rw [hr]
    simp only [List.map_cons, List.map_nil]
    rw [Nat.mod_eq_of_lt (show lb.roundRobinCount + 3 + 1 + 0 < 2 ^ 64 by omega),
      Nat.mod_eq_of_lt (show lb.roundRobinCount + 3 + 1 + 1 < 2 ^ 64 by omega),
      Nat.mod_eq_of_lt (show lb.roundRobinCount + 3 + 1 + 2 < 2 ^ 64 by omega)]
    refine ⟨?_, fun h => ?_, fun h => ?_, fun h => ?_⟩
    · rw [picks_all_alive (by omega) (by omega) hall (Or.inl (by omega)), hn]
      rfl
    · have a0 : (lb.roundRobinCount + 3 + 1 + 0) % 3 = 1 := by omega
      have a1 : (lb.roundRobinCount + 3 + 1 + 1) % 3 = 2 := by omega
      have a2 : (lb.roundRobinCount + 3 + 1 + 2) % 3 = 0 := by omega
      rw [a0, a1, a2]
      rfl
    · have a0 : (lb.roundRobinCount + 3 + 1 + 0) % 3 = 2 := by omega
      have a1 : (lb.roundRobinCount + 3 + 1 + 1) % 3 = 0 := by omega
      have a2 : (lb.roundRobinCount + 3 + 1 + 2) % 3 = 1 := by omega
      rw [a0, a1, a2]
      rfl
    · have a0 : (lb.roundRobinCount + 3 + 1 + 0) % 3 = 0 := by omega
      have a1 : (lb.roundRobinCount + 3 + 1 + 1) % 3 = 1 := by omega
      have a2 : (lb.roundRobinCount + 3 + 1 + 2) % 3 = 2 := by omega
      rw [a0, a1, a2]
      rfl

/-- Witness for C6 (amended): the fresh balancer over `[A, B, C]`. -/
theorem scenario_B_down_witness :
    (poolABC 0).backends.length = 3 ∧ phaseAllUp.length = 3 ∧ phaseBDown.length = 3 ∧
    answersDuring (fun _ => true) (poolABC 0) phaseAllUp = true ∧
    answersDuring (fun j => decide (j ≠ 1)) (dispatches (poolABC 0) phaseAllUp).lb phaseBDown
      = true ∧
    (poolABC 0).roundRobinCount + 6 < 2 ^ 64 ∧ (poolABC 0).roundRobinCount % 3 = 0 ∧
    (dispatches (dispatches (poolABC 0) phaseAllUp).lb phaseBDown).picks
      = [some 2, some 2, some 0] :=
  ⟨rfl, rfl, rfl, by decide, by decide, by decide, by decide,
    ((scenario_B_down (poolABC 0) phaseAllUp phaseBDown rfl rfl rfl (by decide)
      (by decide)).2 (by decide)).2.1 (by decide)⟩

/-! ## C7: the cursor -/

/-- C7 (as stated, refuted): on the empty pool `getNextBackend` leaves the
cursor where it was, and at `2 ^ 64 - 1` the add wraps the cursor to 0. -/
theorem cursor_not_advanced_on_empty_pool :
    (getNextBackend (NewLoadBalancer ":8080") (envAt 0 [])).lb.roundRobinCount = 0 ∧
    (getNextBackend (NewLoadBalancer ":8080") (envAt 0 [])).lb.roundRobinCount
      ≠ (NewLoadBalancer ":8080").roundRobinCount + 1 ∧
    (getNextBackend (poolABC (2 ^ 64 - 1)) (envAt 0 [])).lb.roundRobinCount = 0 := by
  decide

/-- C7 (amended): on a non-empty pool every call of `getNextBackend` sets the
cursor to `(cursor + 1) mod 2 ^ 64`, whether or not a backend is found; on the
empty pool the cursor is left unchanged; `ServeHTTP` changes the cursor only
through that call and `AddBackend` does not change it. -/
theorem cursor_advance (lb : LoadBalancer) (env : Nat → Obs) :
    (lb.backends.length ≠ 0 →
      (getNextBackend lb env).lb.roundRobinCount = (lb.roundRobinCount + 1) % 2 ^ 64) ∧
    (lb.backends.length = 0 →
      (getNextBackend lb env).lb.roundRobinCount = lb.roundRobinCount) ∧
    (∀ out now, (ServeHTTP lb env out now).lb.roundRobinCount
      = (getNextBackend lb env).lb.roundRobinCount) ∧
    (∀ parse url now, (AddBackend parse lb url now).2.roundRobinCount = lb.roundRobinCount) := by
  refine ⟨fun h => getNextBackend_count env h, fun h => ?_, fun out now => ?_,
    fun parse url now => ?_⟩
  · rw [getNextBackend_empty env h]
  · unfold ServeHTTP
    simp only
    split
    · rfl
    · split <;> rfl
  · unfold AddBackend
    split <;> rfl

/-- Witness for C7 (amended): a dispatch on `[A, B, C]` in which no member
is alive still moves the cursor from 4 to 5; on the empty pool it stays 0. -/
theorem cursor_advance_witness :
    ((poolABC 4).backends.length ≠ 0 ∧
      (getNextBackend (poolABC 4) (envAt (3000 * Millisecond) [0, 1, 2])).pick = none ∧
      (getNextBackend (poolABC 4) (envAt (3000 * Millisecond) [0, 1, 2])).lb.roundRobinCount
        = 5) ∧
    ((NewLoadBalancer ":8080").backends.length = 0 ∧
      (getNextBackend (NewLoadBalancer ":8080") (envAt 0 [])).lb.roundRobinCount = 0) :=
  ⟨⟨by decide, by decide,
      (cursor_advance (poolABC 4) (envAt (3000 * Millisecond) [0, 1, 2])).1 (by decide)⟩,
    ⟨rfl, (cursor_advance (NewLoadBalancer ":8080") (envAt 0 [])).2.1 rfl⟩⟩

/-! ## C8: demotion on forwarding failure -/

/-- C8: when forwarding to pool member `j` fails at time `t`, the error handler
commits `Alive = false` with `lastChecked = t`; every later dispatch made while
`now - t` is below the member's cache window passes over `j` without probing
it, and selects another member whenever one answers alive. -/
theorem forwarding_failure_skips (lb : LoadBalancer) (env0 : Nat → Obs) (j : Nat)
    (b : Backend) (t : Int) (envs : List (Nat → Obs)) (env : Nat → Obs)
    (hj : lb.backends[j]? = some b)
    (hfwd : Event.forward j ∈ (ServeHTTP lb env0 ForwardOutcome.failed t).trace)
    (hfresh : ∀ e, e ∈ envs ++ [env] → (e j).now - t < b.checkTimeout) :
    (∃ b', (ServeHTTP lb env0 ForwardOutcome.failed t).lb.backends[j]? = some b' ∧
      b'.Alive = false ∧ b'.lastChecked = t) ∧
    (getNextBackend (dispatches (ServeHTTP lb env0 ForwardOutcome.failed t).lb envs).lb
      env).pick ≠ some j ∧
    Event.probe j ∉ (getNextBackend
      (dispatches (ServeHTTP lb env0 ForwardOutcome.failed t).lb envs).lb env).trace ∧
    ((∃ k, answers (dispatches (ServeHTTP lb env0 ForwardOutcome.failed t).lb envs).lb.backends
        env k = true) →
      ∃ k, k ≠ j ∧
        (getNextBackend (dispatches (ServeHTTP lb env0 ForwardOutcome.failed t).lb envs).lb
          env).pick = some k ∧
        answers (dispatches (ServeHTTP lb env0 ForwardOutcome.failed t).lb envs).lb.backends
          env k = true) := by
  have hd := serve_failure_demotes hj hfwd
  have hrun := demoted_run envs _ hd
    (fun e he => le_of_lt (hfresh e (List.mem_append_left _ he)))
  obtain ⟨hkeep, hdead, hnoprobe⟩ := demoted_step hrun
    (le_of_lt (hfresh env (List.mem_append_right _ (List.mem_singleton_self env))))
  refine ⟨?_, ?_, hnoprobe, fun hsome => pick_other_alive hdead hsome⟩
  · obtain ⟨b', hb', hA, hL, _⟩ := hd
    exact ⟨b', hb', hA, hL⟩
  · intro hpick
    by_cases hn : (dispatches (ServeHTTP lb env0 ForwardOutcome.failed t).lb envs).lb.backends.length = 0
    · rw [getNextBackend_empty env hn] at hpick
      exact Option.noConfusion hpick
    · rw [getNextBackend_pick env hn] at hpick
      have := (firstAliveFrom_some hpick).2
      rw [hdead] at this
      exact Bool.noConfusion this

/-- Witness for C8: the request forwarded to B fails
at 150 ms; the two dispatches that follow within the window pass over B. -/
theorem forwarding_failure_skips_witness :
    (poolABC 0).backends[1]? = some (freshBackend "http://localhost:8082") ∧
    Event.forward 1 ∈ (ServeHTTP (poolABC 0) (envAt (100 * Millisecond) [])
      ForwardOutcome.failed (150 * Millisecond)).trace ∧
    (∀ e, e ∈ [envAt (200 * Millisecond) []] ++ [envAt (300 * Millisecond) []] →
      (e 1).now - 150 * Millisecond < (freshBackend "http://localhost:8082").checkTimeout) ∧
    (getNextBackend (dispatches (ServeHTTP (poolABC 0) (envAt (100 * Millisecond) [])
      ForwardOutcome.failed (150 * Millisecond)).lb [envAt (200 * Millisecond) []]).lb
        (envAt (300 * Millisecond) [])).pick ≠ some 1 :=
  have hfresh : ∀ e, e ∈ [envAt (200 * Millisecond) []] ++ [envAt (300 * Millisecond) []] →
      (e 1).now - 150 * Millisecond < (freshBackend "http://localhost:8082").checkTimeout := by
    intro e he
    simp only [List.singleton_append, List.mem_cons, List.mem_singleton, List.mem_nil_iff,
      or_false] at he
    rcases he with rfl | rfl <;> decide
  ⟨rfl, by decide, hfresh,
    (forwarding_failure_skips (poolABC 0) (envAt (100 * Millisecond) []) 1
      (freshBackend "http://localhost:8082") (150 * Millisecond)
      [envAt (200 * Millisecond) []] (envAt (300 * Millisecond) []) rfl (by decide)
      hfresh).2.1⟩

/-! ## C9: AddBackend -/

/-- C9: if the address parses, `AddBackend` returns no error and appends one
new backend with `Alive = true` at the end of the pool, leaving the existing
members and their order as they were; if it does not parse, `AddBackend`
returns an error and leaves the balancer unchanged. -/
theorem addBackend_appends_or_fails (parse : String → Except String String)
    (lb : LoadBalancer) (url : String) (now : Int) :
    (∀ u, parse url = Except.ok u →
      (AddBackend parse lb url now).1 = none ∧
      (∃ b, (AddBackend parse lb url now).2.backends = lb.backends ++ [b] ∧
        b.Alive = true ∧ b.URL = u ∧ b.lastChecked = now ∧ b.checkTimeout = 2 * Second) ∧
      (AddBackend parse lb url now).2.roundRobinCount = lb.roundRobinCount ∧
      (AddBackend parse lb url now).2.port = lb.port) ∧
    (∀ e, parse url = Except.error e →
      (AddBackend parse lb url now).1 = some ("failed to create backend: " ++ e) ∧
      (AddBackend parse lb url now).2 = lb) := by
  constructor
  · intro u hu
    have h : AddBackend parse lb url now = (none, { lb with backends := lb.backends ++
        [{ URL := u, Alive := true, checkTimeout := 2 * Second, lastChecked := now }] }) := by
      unfold AddBackend NewBackend
      rw [hu]
    rw [h]
    exact ⟨rfl, ⟨_, rfl, rfl, rfl, rfl, rfl⟩, rfl, rfl⟩
  · intro e he
    have h : AddBackend parse lb url now = (some ("failed to create backend: " ++ e), lb) := by
      unfold AddBackend NewBackend
      rw [he]
    rw [h]
    exact ⟨rfl, rfl⟩

/-- Witness for C9: one address that parses and
one that does not. -/
theorem addBackend_appends_or_fails_witness :
    (sampleParse "http://localhost:8084" = Except.ok "http://localhost:8084" ∧
      (AddBackend sampleParse (poolABC 0) "http://localhost:8084" 5).1 = none) ∧
    (sampleParse ":8081" = Except.error "missing protocol scheme" ∧
      (AddBackend sampleParse (poolABC 0) ":8081" 5).2 = poolABC 0) :=
  ⟨⟨rfl,
      ((addBackend_appends_or_fails sampleParse (poolABC 0) "http://localhost:8084" 5).1
        "http://localhost:8084" rfl).1⟩,
    ⟨rfl,
      ((addBackend_appends_or_fails sampleParse (poolABC 0) ":8081" 5).2
        "missing protocol scheme" rfl).2⟩⟩

/-! ## C10: CheckHealth -/

/-- C10 (as stated, refuted): a probe that completes with 204 No Content, a
success status, makes `CheckHealth` return false and commit `Alive = false`;
so the result is not true exactly when the probe completed with a success
status. -/
theorem checkHealth_rejects_204 :
    completedWithSuccess (ProbeResult.status 204) = true ∧
    (CheckHealth (freshBackend "http://localhost:8081") (ProbeResult.status 204)
      (3 * Second)).alive = false ∧
    (CheckHealth (freshBackend "http://localhost:8081") (ProbeResult.status 204)
      (3 * Second)).backend.Alive = false ∧
    ¬ (∀ resp, (CheckHealth (freshBackend "http://localhost:8081") resp (3 * Second)).alive
        = true ↔ completedWithSuccess resp = true) := by
  refine ⟨by decide, by decide, by decide, fun h => ?_⟩
  exact absurd ((h (ProbeResult.status 204)).mpr (by decide)) (by decide)

/-- C10 (amended): for every probe outcome `CheckHealth` issues one HEAD
request, returns true exactly when the probe completed with status 200 OK
(a transport error, a timeout and every other status, the other statuses of
the success class included, give false), and commits `Alive` equal to the
returned value together with `lastChecked = now`, leaving `URL` and
`checkTimeout` as they were. -/
theorem checkHealth_commits (b : Backend) (resp : ProbeResult) (now : Int) :
    ((CheckHealth b resp now).alive = true ↔ resp = ProbeResult.status StatusOK) ∧
    (CheckHealth b resp now).backend.Alive = (CheckHealth b resp now).alive ∧
    (CheckHealth b resp now).backend.lastChecked = now ∧
    (CheckHealth b resp now).backend.URL = b.URL ∧
    (CheckHealth b resp now).backend.checkTimeout = b.checkTimeout ∧
    (CheckHealth b resp now).probes = 1 := by
  cases resp with
  | failed =>
    refine ⟨?_, rfl, rfl, rfl, rfl, rfl⟩
    constructor
    · intro h
      exact Bool.noConfusion h
    · intro h
      exact ProbeResult.noConfusion h
  | status code =>
    refine ⟨?_, rfl, rfl, rfl, rfl, rfl⟩
    unfold CheckHealth
    simp only [decide_eq_true_eq]
    constructor
    · intro h
      rw [h]
    · intro h
      exact ProbeResult.status.inj h

/-! ## C11: probes and locks -/

/-- One call of `IsAlive` leaves the held locks as they were and issues its
probe, if any, after releasing the backend's own lock. -/
theorem locksAtProbes_isAlive (held : List Mutex) (idx : Nat) (b : Backend) (o : Obs)
    (rest : List Act) :
    locksAtProbes held (IsAliveActs idx b o ++ rest) =
      List.replicate (IsAlive b o).probes (idx, held) ++ locksAtProbes held rest := by
  unfold IsAliveActs IsAlive
  split
  · have hp : (CheckHealth b o.resp o.commit).probes = 1 := by
      unfold CheckHealth
      split <;> rfl
    rw [hp]
    simp [CheckHealthActs, SetAliveActs, locksAtProbes, List.replicate]
  · simp [locksAtProbes, List.replicate]

/-- The probes of the loop are those of its trace, each issued under the locks
held on entry. -/
theorem locksAtProbes_findHealthy (env : Nat → Obs) (index n : Nat) (held : List Mutex) :
    ∀ (r i : Nat) (bs : List Backend) (rest : List Act),
      locksAtProbes held (findHealthyActs env index n r i bs ++ rest) =
        (findHealthy env index n r i bs).trace.map (fun e => (eventMember e, held))
          ++ locksAtProbes held rest := by
  intro r
  induction r with
  | zero => intro i bs rest; simp [findHealthyActs, findHealthy]
  | succ r ih =>
    intro i bs rest
    rw [findHealthyActs, findHealthy]
    cases hb : bs[(index + i) % n]? with
    | none => simp
    | some b =>
      simp only
      cases ha : (IsAlive b (env ((index + i) % n))).alive with
      | true =>
        simp only [if_true]
        rw [locksAtProbes_isAlive, List.map_replicate]
        rfl
      | false =>
        simp only [Bool.false_eq_true, if_false]
        rw [List.append_assoc, locksAtProbes_isAlive, ih, List.map_append, List.map_replicate,
          List.append_assoc]
        rfl

theorem locksAtProbes_spawn (held : List Mutex) (rest : List Act) :
    ∀ (l : List Nat), locksAtProbes held (l.map Act.spawn ++ rest) = locksAtProbes held rest := by
  intro l
  induction l with
  | nil => rfl
  | cons a l ih =>
    rw [List.map_cons, List.cons_append, locksAtProbes]
    exact ih

theorem locksAtProbes_getNextBackend (lb : LoadBalancer) (env : Nat → Obs) :
    locksAtProbes [] (getNextBackendActs lb env) =
      (getNextBackend lb env).trace.map (fun e => (eventMember e, [Mutex.pool])) := by
  unfold getNextBackendActs getNextBackend
  rw [locksAtProbes]
  split
  · simp [locksAtProbes]
  · rw [locksAtProbes_findHealthy]
    simp [locksAtProbes]

/-- C11 (as stated, refuted): a dispatch on `[A, B, C]` whose start index falls
on B, with every cache expired and the probe of B failing, issues the HEAD
requests to B and to C while it holds the read lock of the pool. -/
theorem dispatch_probes_under_pool_lock :
    locksAtProbes [] (getNextBackendActs (poolABC 0) (envAt (3000 * Millisecond) [1]))
      = [(1, [Mutex.pool]), (2, [Mutex.pool])] ∧
    ¬ (∀ p, p ∈ locksAtProbes [] (getNextBackendActs (poolABC 0)
        (envAt (3000 * Millisecond) [1])) → p.2 = []) := by
  refine ⟨by decide, fun h => ?_⟩
  exact absurd (h (1, [Mutex.pool]) (by decide)) (by decide)

/-- C11 (amended): a probe is never issued while a backend's own lock is held;
`IsAlive` called on its own, the sweep goroutine of `healthCheck` and the
`CheckHealth` goroutines it starts issue their probes holding no lock at all;
`getNextBackend` issues every probe it triggers (exactly those of its trace)
holding the read lock of the pool and nothing else. -/
theorem probes_and_locks (lb : LoadBalancer) (env : Nat → Obs) (idx : Nat) (b : Backend)
    (o : Obs) :
    locksAtProbes [] (IsAliveActs idx b o) = List.replicate (IsAlive b o).probes (idx, []) ∧
    locksAtProbes [] (healthCheckActs lb) = [] ∧
    locksAtProbes [] (CheckHealthActs idx) = [(idx, [])] ∧
    locksAtProbes [] (getNextBackendActs lb env) =
      (getNextBackend lb env).trace.map (fun e => (eventMember e, [Mutex.pool])) ∧
    (∀ p, p ∈ locksAtProbes [] (getNextBackendActs lb env) → p.2 = [Mutex.pool]) := by
  refine ⟨?_, ?_, ?_, locksAtProbes_getNextBackend lb env, ?_⟩
  · have h := locksAtProbes_isAlive [] idx b o []
    rw [List.append_nil] at h
    rw [h]
    simp [locksAtProbes]
  · unfold healthCheckActs
    rw [locksAtProbes, locksAtProbes_spawn]
    simp [locksAtProbes]
  · simp [CheckHealthActs, SetAliveActs, locksAtProbes]
  · intro p hp
    rw [locksAtProbes_getNextBackend, List.mem_map] at hp
    obtain ⟨e, _, rfl⟩ := hp
    rfl

/-- Witness for C11 (amended): the probe of B in a dispatch on `[A, B, C]`
with every cache expired. -/
theorem probes_and_locks_witness :
    (1, [Mutex.pool]) ∈ locksAtProbes [] (getNextBackendActs (poolABC 0)
      (envAt (3000 * Millisecond) [])) ∧
    ((1, [Mutex.pool]) : Nat × List Mutex).2 = [Mutex.pool] :=
  ⟨by decide,
    (probes_and_locks (poolABC 0) (envAt (3000 * Millisecond) []) 0
      (freshBackend "http://localhost:8081") (envAt (3000 * Millisecond) [] 0)).2.2.2.2
      (1, [Mutex.pool]) (by decide)⟩

/-! ## C12: distribution over a partly unhealthy pool -/

/-- The start indices of `n` consecutive counts run through all positions. -/
theorem rotated_range_perm (a n : Nat) :
    ((List.range n).map (fun t => (a + t) % n)).Perm (List.range n) := by
  apply (List.perm_ext_iff_of_nodup _ (List.nodup_range n)).mpr
  · intro x
    rw [List.mem_map, List.mem_range]
    constructor
    · rintro ⟨t, ht, rfl⟩
      exact Nat.mod_lt _ (by have := List.mem_range.mp ht; omega)
    · intro hx
      obtain ⟨k, hk, hkx⟩ := offset_surj a hx
      exact ⟨k, List.mem_range.mpr hk, hkx⟩
  · apply List.Nodup.map_on _ (List.nodup_range n)
    intro x hx y hy hxy
    exact add_mod_inj (List.mem_range.mp hx) (List.mem_range.mp hy) hxy

theorem le_length_takeWhile_range' (p : Nat → Bool) :
    ∀ (len s m : Nat), m ≤ ((List.range' s len).takeWhile p).length ↔
      m ≤ len ∧ ∀ i, i < m → p (s + i) = true := by
  intro len
  induction len with
  | zero =>
    intro s m
    simp only [List.range'_zero, List.takeWhile_nil, List.length_nil, Nat.le_zero_eq]
    constructor
    · rintro rfl
      exact ⟨rfl, fun i hi => absurd hi (Nat.not_lt_zero i)⟩
    · exact fun h => h.1
  | succ len ih =>
    intro s m
    rw [List.range'_succ, List.takeWhile_cons]
    cases hp : p s with
    | false =>
      simp only [Bool.false_eq_true, if_false, List.length_nil, Nat.le_zero_eq]
      constructor
      · rintro rfl
        exact ⟨Nat.zero_le _, fun i hi => absurd hi (Nat.not_lt_zero i)⟩
      · rintro ⟨_, h⟩
        by_contra hm
        have := h 0 (Nat.pos_of_ne_zero hm)
        rw [Nat.add_zero, hp] at this
        exact Bool.noConfusion this
    | true =>
      simp only [if_true, List.length_cons]
      cases m with
      | zero =>
        exact ⟨fun _ => ⟨Nat.zero_le _, fun i hi => absurd hi (Nat.not_lt_zero i)⟩,
          fun _ => Nat.zero_le _⟩
      | succ m =>
        rw [Nat.succ_le_succ_iff, ih (s + 1) m, Nat.succ_le_succ_iff]
        constructor
        · rintro ⟨hm, h⟩
          refine ⟨hm, fun i hi => ?_⟩
          cases i with
          | zero => exact hp
          | succ i =>
            have := h i (by omega)
            rwa [Nat.add_assoc, Nat.add_comm 1 i] at this
        · rintro ⟨hm, h⟩
          refine ⟨hm, fun i hi => ?_⟩
          have := h (i + 1) (by omega)
          rwa [Nat.add_assoc, Nat.add_comm 1 i]

theorem countP_tail_range (n d : Nat) :
    ∀ N, N ≤ n → (List.range N).countP (fun u => decide (n ≤ u + d + 1)) = N - (n - d - 1) := by
  intro N
  induction N with
  | zero => intro _; simp
  | succ N ih =>
    intro hN
    rw [List.range_succ, List.countP_append, ih (by omega), List.countP_singleton]
    by_cases h : n ≤ N + d + 1
    · rw [if_pos (decide_eq_true h)]
      omega
    · rw [if_neg (by simpa using h)]
      omega

/-- The policy started at `s` selects the alive member `j`, `k` steps ahead,
exactly when the members in between are not alive. -/
theorem firstAliveFrom_eq_some_iff {alive : Nat → Bool} {n s k j : Nat} (hk : k < n)
    (hj : (s + k) % n = j) (ha : alive j = true) :
    firstAliveFrom alive n s = some j ↔ ∀ i, i < k → alive ((s + i) % n) = false := by
  constructor
  · intro h
    by_contra hne
    have hex : ∃ i, i < k ∧ alive ((s + i) % n) = true := by
      by_contra hno
      apply hne
      intro i hi
      cases hv : alive ((s + i) % n) with
      | false => rfl
      | true => exact absurd ⟨i, hi, hv⟩ hno
    have hspec := Nat.find_spec hex
    have hleast : firstAliveFrom alive n s = some ((s + Nat.find hex) % n) := by
      apply firstAliveFrom_least (by omega) hspec.2
      intro i hi
      cases hv : alive ((s + i) % n) with
      | false => rfl
      | true => exact absurd ⟨by omega, hv⟩ (Nat.find_min hex hi)
    rw [h] at hleast
    have hmod : (s + k) % n = (s + Nat.find hex) % n := by
      rw [hj]
      exact Option.some.inj hleast
    have := add_mod_inj hk (by omega) hmod
    omega
  · intro h
    rw [← hj]
    exact firstAliveFrom_least hk (by rw [hj]; exact ha) h

theorem deadBefore_lt {alive : Nat → Bool} {n j : Nat} (hn : 1 ≤ n) :
    deadBefore alive n j + 1 ≤ n := by
  unfold deadBefore
  rw [List.range_eq_range']
  have := ((le_length_takeWhile_range' (fun i => !alive ((j + n - 1 - i) % n)) (n - 1) 0
    _).mp (Nat.le_refl _)).1
  omega

theorem le_deadBefore_iff {alive : Nat → Bool} {n j m : Nat} (hm : m + 1 ≤ n) :
    m ≤ deadBefore alive n j ↔ ∀ i, i < m → alive ((j + n - 1 - i) % n) = false := by
  unfold deadBefore
  rw [List.range_eq_range', le_length_takeWhile_range']
  constructor
  · rintro ⟨_, h⟩ i hi
    have := h i hi
    rw [Nat.zero_add] at this
    simpa using this
  · intro h
    refine ⟨by omega, fun i hi => ?_⟩
    rw [Nat.zero_add, h i hi]
    rfl

/-- A start index selects the alive member `j` exactly when it lies in the run
of members that are not alive ending just before `j`, or is `j` itself. -/
theorem selects_iff_in_dead_run {alive : Nat → Bool} {n j u : Nat} (hj : j < n) (hu : u < n)
    (ha : alive j = true) :
    firstAliveFrom alive n ((j + 1 + u) % n) = some j ↔ n ≤ u + deadBefore alive n j + 1 := by
  have hk : n - 1 - u < n := by omega
  have hto : ((j + 1 + u) % n + (n - 1 - u)) % n = j := by
    rw [Nat.mod_add_mod]
    have : j + 1 + u + (n - 1 - u) = j + n := by omega
    rw [this, Nat.add_mod_right, Nat.mod_eq_of_lt hj]
  rw [firstAliveFrom_eq_some_iff hk hto ha]
  have hiff : n ≤ u + deadBefore alive n j + 1 ↔ n - 1 - u ≤ deadBefore alive n j := by omega
  rw [hiff, le_deadBefore_iff (by omega)]
  constructor
  · intro h i hi
    have := h (n - 1 - u - 1 - i) (by omega)
    rw [Nat.mod_add_mod] at this
    have e : j + 1 + u + (n - 1 - u - 1 - i) = j + n - 1 - i := by omega
    rwa [e] at this
  · intro h i hi
    have := h (n - 1 - u - 1 - i) (by omega)
    rw [Nat.mod_add_mod]
    have e : j + n - 1 - (n - 1 - u - 1 - i) = j + 1 + u + i := by omega
    rwa [e] at this

/-- Over a full turn of start indices the policy selects the alive member `j`
once for itself and once for every member of the dead run before it. -/
theorem count_firstAliveFrom {alive : Nat → Bool} {n j : Nat} (a : Nat) (hj : j < n)
    (ha : alive j = true) :
    ((List.range n).map (fun t => firstAliveFrom alive n ((a + t) % n))).count (some j)
      = 1 + deadBefore alive n j := by
  have hperm : ((List.range n).map (fun t => (a + t) % n)).Perm
      ((List.range n).map (fun u => (j + 1 + u) % n)) :=
    (rotated_range_perm a n).trans (rotated_range_perm (j + 1) n).symm
  have hmap : (List.range n).map (fun t => firstAliveFrom alive n ((a + t) % n))
      = ((List.range n).map (fun t => (a + t) % n)).map (firstAliveFrom alive n) := by
    rw [List.map_map]
    rfl
  rw [List.count_eq_countP, hmap, List.countP_map, hperm.countP_eq, List.countP_map,
    List.countP_congr (q := fun u => decide (n ≤ u + deadBefore alive n j + 1)),
    countP_tail_range n _ n (Nat.le_refl n)]
  · have := @deadBefore_lt alive n j (by omega)
    omega
  · intro u hu
    simp only [Function.comp, beq_iff_eq, decide_eq_true_eq]
    exact selects_iff_in_dead_run hj (List.mem_range.mp hu) ha

theorem picks_fixed_liveness {lb : LoadBalancer} {envs : List (Nat → Obs)} {alive : Nat → Bool}
    (hn : 1 ≤ lb.backends.length) (hlen : envs.length = lb.backends.length)
    (hfix : answersDuring alive lb envs = true)
    (hwrap : lb.roundRobinCount + lb.backends.length < 2 ^ 64) :
    (dispatches lb envs).picks = (List.range lb.backends.length).map
      (fun t => firstAliveFrom alive lb.backends.length
        ((lb.roundRobinCount + 1 + t) % lb.backends.length)) := by
  rw [dispatches_picks _ envs lb (by omega) hfix, hlen]
  apply List.map_congr_left
  intro t ht
  rw [count_mod_no_wrap (List.mem_range.mp ht) (Or.inl hwrap)]

/-- C12: in a pool of `n ≥ 1` members whose liveness is fixed, over `n`
consecutive dispatches during which the `uint64` cursor does not overflow,
every alive member `j` is selected exactly `1 + d(j)` times, `d(j)` being the
number of consecutive members that are not alive immediately before `j` in
cyclic order; a member that is not alive is never selected; so two alive
members are selected equally often exactly when their `d` agree. -/
theorem distribution_partly_unhealthy (lb : LoadBalancer) (envs : List (Nat → Obs))
    (alive : Nat → Bool) (hn : 1 ≤ lb.backends.length)
    (hlen : envs.length = lb.backends.length)
    (hfix : answersDuring alive lb envs = true)
    (hwrap : lb.roundRobinCount + lb.backends.length < 2 ^ 64) :
    (∀ j, j < lb.backends.length → alive j = true →
      (dispatches lb envs).picks.count (some j) = 1 + deadBefore alive lb.backends.length j) ∧
    (∀ j, j < lb.backends.length → alive j = false →
      (dispatches lb envs).picks.count (some j) = 0) ∧
    (∀ j k, j < lb.backends.length → k < lb.backends.length →
      alive j = true → alive k = true →
      ((dispatches lb envs).picks.count (some j) = (dispatches lb envs).picks.count (some k) ↔
        deadBefore alive lb.backends.length j = deadBefore alive lb.backends.length k)) := by
  have hpicks := picks_fixed_liveness hn hlen hfix hwrap
  have hcount : ∀ j, j < lb.backends.length → alive j = true →
      (dispatches lb envs).picks.count (some j)
        = 1 + deadBefore alive lb.backends.length j := by
    intro j hj ha
    rw [hpicks]
    exact count_firstAliveFrom _ hj ha
  refine ⟨hcount, fun j _ ha => ?_, fun j k hj hk haj hak => ?_⟩
  · apply List.count_eq_zero_of_not_mem
    rw [hpicks, List.mem_map]
    rintro ⟨t, _, ht⟩
    have := (firstAliveFrom_some ht).2
    rw [ha] at this
    exact Bool.noConfusion this
  · rw [hcount j hj haj, hcount k hk hak]
    omega

/-- Witness for C12: the pool `[A, B, C]` with B failing its probe; C, which
follows B, is selected twice and A once. -/
theorem distribution_partly_unhealthy_witness :
    1 ≤ (poolABC 0).backends.length ∧
    phaseBDown.length = (poolABC 0).backends.length ∧
    answersDuring (fun j => decide (j ≠ 1)) (poolABC 0) phaseBDown = true ∧
    (poolABC 0).roundRobinCount + (poolABC 0).backends.length < 2 ^ 64 ∧
    deadBefore (fun j => decide (j ≠ 1)) (poolABC 0).backends.length 2 = 1 ∧
    (dispatches (poolABC 0) phaseBDown).picks.count (some 2) = 2 :=
  ⟨by decide, rfl, by decide, by decide, by decide,
    (distribution_partly_unhealthy (poolABC 0) phaseBDown (fun j => decide (j ≠ 1))
      (by decide) rfl (by decide) (by decide)).1 2 (by decide) (by decide)⟩

end Balancer
